import Mathlib

/-!
Shallow embedding of `src/trend-monitor.py` (indicator engine and trend
classifier) over exact rational arithmetic.

Python floats are modelled by `Rat`; a pandas `NaN`/`pd.NA` cell is modelled
by `none : Option Rat`.  The square root used by
`rolling(window=20).std()` is not rational-valued, so every definition that
needs it takes an abstract `sqrtQ : Rat → Rat` parameter; none of the
verified properties depend on its values.
-/

namespace TrendMonitor

/-- One output row of `calculate_indicators`: the `Close` value of the bar
together with the six indicator columns initialised to `pd.NA` and
(possibly) overwritten by the engine. -/
structure IndRow where
  close : Rat
  ma20 : Option Rat
  ema20 : Option Rat
  macd : Option Rat
  signal : Option Rat
  upper : Option Rat
  lower : Option Rat
deriving Repr, DecidableEq

/-- Recurrence of `Series.ewm(span, adjust=False).mean()` after the seed:
`y = alpha * x + (1 - alpha) * prev`. -/
def ewmAux (a : Rat) : Rat → List Rat → List Rat
  | _, [] => []
  | prev, x :: xs =>
    let y := a * x + (1 - a) * prev
    y :: ewmAux a y xs

/-- `Series.ewm(span=n, adjust=False).mean()`: seeded with the first value,
then the exponential recurrence with `alpha = 2 / (span + 1)`. -/
def ewm (span : Nat) : List Rat → List Rat
  | [] => []
  | x :: xs => x :: ewmAux ((2 : Rat) / ((span : Rat) + 1)) x xs

/-- A column of length `n` whose cell at index `i` is `f i`. -/
def idxCol (n : Nat) (f : Nat → Option Rat) : List (Option Rat) :=
  (List.range n).map f

/-- `Series.rolling(window=w).mean()`: the arithmetic mean of the trailing
`w` values, `NaN` (here `none`) until `w` values are available. -/
def rollingMean (w : Nat) (xs : List Rat) : List (Option Rat) :=
  idxCol xs.length fun i =>
    if w ≤ i + 1 then some ((((xs.drop (i + 1 - w)).take w).sum) / (w : Rat))
    else none

/-- `Series.rolling(window=w).std()`: sample standard deviation (`ddof=1`)
of the trailing `w` values, with the real square root abstracted as
`sqrtQ`. -/
def rollingStd (sqrtQ : Rat → Rat) (w : Nat) (xs : List Rat) : List (Option Rat) :=
  idxCol xs.length fun i =>
    if w ≤ i + 1 then
      some (sqrtQ ((((xs.drop (i + 1 - w)).take w).map fun x =>
        (x - (((xs.drop (i + 1 - w)).take w).sum) / (w : Rat)) ^ 2).sum / ((w : Rat) - 1)))
    else none

/-- The `MACD` series `ema12 - ema26` of the close column. -/
def macdDiff (closes : List Rat) : List Rat :=
  List.zipWith (fun a b => a - b) (ewm 12 closes) (ewm 26 closes)

/-- The `MA20` column: stays `pd.NA` unless the 20-point length check
passes, in which case it is the rolling mean. -/
def maColumn (closes : List Rat) : List (Option Rat) :=
  if 20 ≤ closes.length then rollingMean 20 closes
  else List.replicate closes.length none

/-- The `EMA20` column: stays `pd.NA` unless the same 20-point length check
passes (the code computes MA20 and EMA20 under one gate). -/
def emaColumn (closes : List Rat) : List (Option Rat) :=
  if 20 ≤ closes.length then (ewm 20 closes).map some
  else List.replicate closes.length none

/-- The `MACD` column: stays `pd.NA` unless the 26-point length check
passes; once it passes, the full `ema12 - ema26` series is stored. -/
def macdColumn (closes : List Rat) : List (Option Rat) :=
  if 26 ≤ closes.length then (macdDiff closes).map some
  else List.replicate closes.length none

/-- The `Signal` column: `ewm(span=9)` of the `MACD` column, under the same
26-point gate. -/
def signalColumn (closes : List Rat) : List (Option Rat) :=
  if 26 ≤ closes.length then (ewm 9 (macdDiff closes)).map some
  else List.replicate closes.length none

/-- The `Upper` Bollinger column: `MA20 + 2 * rolling std`, only when the
20-point check passes and the `MA20` column has a non-NA cell; `NaN`
cells propagate through the addition. -/
def upperColumn (sqrtQ : Rat → Rat) (closes : List Rat) : List (Option Rat) :=
  if 20 ≤ closes.length ∧ (maColumn closes).any Option.isSome = true then
    idxCol closes.length fun i =>
      match (maColumn closes).getD i none, (rollingStd sqrtQ 20 closes).getD i none with
      | some m, some s => some (m + 2 * s)
      | _, _ => none
  else List.replicate closes.length none

/-- The `Lower` Bollinger column: `MA20 - 2 * rolling std`, gated exactly
like `Upper`. -/
def lowerColumn (sqrtQ : Rat → Rat) (closes : List Rat) : List (Option Rat) :=
  if 20 ≤ closes.length ∧ (maColumn closes).any Option.isSome = true then
    idxCol closes.length fun i =>
      match (maColumn closes).getD i none, (rollingStd sqrtQ 20 closes).getD i none with
      | some m, some s => some (m - 2 * s)
      | _, _ => none
  else List.replicate closes.length none

/-- `calculate_indicators`: on a `None`/empty/`Close`-less input the Python
returns `None`; otherwise it returns the copied frame with the six
indicator columns attached, one row per input bar.  The input is the
`Close` column of the frame. -/
def calculate_indicators (sqrtQ : Rat → Rat) (closes : List Rat) : Option (List IndRow) :=
  if closes.isEmpty then none
  else
    some ((List.range closes.length).map fun i =>
      ⟨closes.getD i 0,
       (maColumn closes).getD i none,
       (emaColumn closes).getD i none,
       (macdColumn closes).getD i none,
       (signalColumn closes).getD i none,
       (upperColumn sqrtQ closes).getD i none,
       (lowerColumn sqrtQ closes).getD i none⟩)

/-- Explicit-state view of one call to `calculate_indicators`: the caller's
series is threaded through the call and handed back alongside the result.
The body's first statement is `df_copy = df.copy()` and every later write
targets `df_copy`, so the caller's frame comes back as it went in. -/
def calculate_indicators_call (sqrtQ : Rat → Rat) (df : List Rat) :
    List Rat × Option (List IndRow) :=
  let df_copy := df
  (df, calculate_indicators sqrtQ df_copy)

/-- The row the engine produced at index `i`, when both the engine returned
a frame and the index is in range. -/
def rowAt (sqrtQ : Rat → Rat) (closes : List Rat) (i : Nat) : Option IndRow :=
  (calculate_indicators sqrtQ closes).bind fun rows => rows.get? i

/-- The `MA20` cell the engine produced at index `i`. -/
def maAt (sqrtQ : Rat → Rat) (closes : List Rat) (i : Nat) : Option Rat :=
  (rowAt sqrtQ closes i).bind IndRow.ma20

/-- The `EMA20` cell the engine produced at index `i`. -/
def emaAt (sqrtQ : Rat → Rat) (closes : List Rat) (i : Nat) : Option Rat :=
  (rowAt sqrtQ closes i).bind IndRow.ema20

/-- The `MACD` cell the engine produced at index `i`. -/
def macdAt (sqrtQ : Rat → Rat) (closes : List Rat) (i : Nat) : Option Rat :=
  (rowAt sqrtQ closes i).bind IndRow.macd

/-- The `Signal` cell the engine produced at index `i`. -/
def signalAt (sqrtQ : Rat → Rat) (closes : List Rat) (i : Nat) : Option Rat :=
  (rowAt sqrtQ closes i).bind IndRow.signal

/-- The `Upper` cell the engine produced at index `i`. -/
def upperAt (sqrtQ : Rat → Rat) (closes : List Rat) (i : Nat) : Option Rat :=
  (rowAt sqrtQ closes i).bind IndRow.upper

/-- The `Lower` cell the engine produced at index `i`. -/
def lowerAt (sqrtQ : Rat → Rat) (closes : List Rat) (i : Nat) : Option Rat :=
  (rowAt sqrtQ closes i).bind IndRow.lower

theorem ewmAux_length (a : Rat) (p : Rat) (xs : List Rat) :
    (ewmAux a p xs).length = xs.length := by
  induction xs generalizing p with
  | nil => rfl
  | cons x xs ih => simp [ewmAux, ih]

theorem ewm_length (span : Nat) (xs : List Rat) :
    (ewm span xs).length = xs.length := by
  cases xs with
  | nil => rfl
  | cons x xs => simp [ewm, ewmAux_length]

theorem macdDiff_length (closes : List Rat) :
    (macdDiff closes).length = closes.length := by
  simp [macdDiff, ewm_length]

theorem idxCol_getD (n : Nat) (f : Nat → Option Rat) (i : Nat) (h : i < n) :
    (idxCol n f).getD i none = f i := by
  simp [idxCol, List.getD_eq_getElem?_getD, List.getElem?_map,
    List.getElem?_range h]

theorem getD_replicate_none (n i : Nat) :
    (List.replicate n (none : Option Rat)).getD i none = none := by
  induction n generalizing i with
  | zero => simp [List.getD]
  | succ n ih =>
    cases i with
    | zero => rfl
    | succ i => simp [List.replicate, ih i]

theorem isEmpty_false_of_lt {closes : List Rat} {i : Nat}
    (h : i < closes.length) : closes.isEmpty = false := by
  cases closes with
  | nil => simp at h
  | cons x xs => rfl

theorem rowAt_of_lt (sqrtQ : Rat → Rat) (closes : List Rat) (i : Nat)
    (h : i < closes.length) :
    rowAt sqrtQ closes i =
      some ⟨closes.getD i 0,
        (maColumn closes).getD i none,
        (emaColumn closes).getD i none,
        (macdColumn closes).getD i none,
        (signalColumn closes).getD i none,
        (upperColumn sqrtQ closes).getD i none,
        (lowerColumn sqrtQ closes).getD i none⟩ := by
  rw [rowAt, calculate_indicators, if_neg (by simp [isEmpty_false_of_lt h])]
  simp [List.get?_eq_getElem?, List.getElem?_map, List.getElem?_range h]

theorem rowAt_of_ge (sqrtQ : Rat → Rat) (closes : List Rat) (i : Nat)
    (h : closes.length ≤ i) :
    rowAt sqrtQ closes i = none := by
  rw [rowAt, calculate_indicators]
  by_cases he : closes.isEmpty
  · simp [he]
  · rw [if_neg he]
    simp [List.get?_eq_getElem?, List.getElem?_map]
    omega

theorem maAt_of_lt (sqrtQ : Rat → Rat) (closes : List Rat) (i : Nat)
    (h : i < closes.length) :
    maAt sqrtQ closes i = (maColumn closes).getD i none := by
  rw [maAt, rowAt_of_lt sqrtQ closes i h]; rfl

theorem emaAt_of_lt (sqrtQ : Rat → Rat) (closes : List Rat) (i : Nat)
    (h : i < closes.length) :
    emaAt sqrtQ closes i = (emaColumn closes).getD i none := by
  rw [emaAt, rowAt_of_lt sqrtQ closes i h]; rfl

theorem macdAt_of_lt (sqrtQ : Rat → Rat) (closes : List Rat) (i : Nat)
    (h : i < closes.length) :
    macdAt sqrtQ closes i = (macdColumn closes).getD i none := by
  rw [macdAt, rowAt_of_lt sqrtQ closes i h]; rfl

theorem signalAt_of_lt (sqrtQ : Rat → Rat) (closes : List Rat) (i : Nat)
    (h : i < closes.length) :
    signalAt sqrtQ closes i = (signalColumn closes).getD i none := by
  rw [signalAt, rowAt_of_lt sqrtQ closes i h]; rfl

theorem upperAt_of_lt (sqrtQ : Rat → Rat) (closes : List Rat) (i : Nat)
    (h : i < closes.length) :
    upperAt sqrtQ closes i = (upperColumn sqrtQ closes).getD i none := by
  rw [upperAt, rowAt_of_lt sqrtQ closes i h]; rfl

theorem lowerAt_of_lt (sqrtQ : Rat → Rat) (closes : List Rat) (i : Nat)
    (h : i < closes.length) :
    lowerAt sqrtQ closes i = (lowerColumn sqrtQ closes).getD i none := by
  rw [lowerAt, rowAt_of_lt sqrtQ closes i h]; rfl

theorem maColumn_getD (closes : List Rat) (i : Nat) (h : i < closes.length) :
    (maColumn closes).getD i none =
      if 20 ≤ closes.length then
        (if 20 ≤ i + 1 then
          some ((((closes.drop (i + 1 - 20)).take 20).sum) / (20 : Rat))
        else none)
      else none := by
  rw [maColumn]
  by_cases h20 : 20 ≤ closes.length
  · rw [if_pos h20, if_pos h20, rollingMean, idxCol_getD _ _ _ h]
    norm_num
  · rw [if_neg h20, if_neg h20]
    exact getD_replicate_none _ _

theorem getD_map_some (xs : List Rat) (i : Nat) (h : i < xs.length) :
    ((xs.map some).getD i none) = some (xs.getD i 0) := by
  simp [List.getD_eq_getElem?_getD, List.getElem?_map, List.getElem?_eq_getElem h]

theorem emaColumn_getD (closes : List Rat) (i : Nat) (h : i < closes.length) :
    (emaColumn closes).getD i none =
      if 20 ≤ closes.length then some ((ewm 20 closes).getD i 0) else none := by
  rw [emaColumn]
  split_ifs with h20
  · exact getD_map_some _ _ (by rw [ewm_length]; exact h)
  · exact getD_replicate_none _ _

theorem macdColumn_getD (closes : List Rat) (i : Nat) (h : i < closes.length) :
    (macdColumn closes).getD i none =
      if 26 ≤ closes.length then some ((macdDiff closes).getD i 0) else none := by
  rw [macdColumn]
  split_ifs with h26
  · exact getD_map_some _ _ (by rw [macdDiff_length]; exact h)
  · exact getD_replicate_none _ _

theorem signalColumn_getD (closes : List Rat) (i : Nat) (h : i < closes.length) :
    (signalColumn closes).getD i none =
      if 26 ≤ closes.length then some ((ewm 9 (macdDiff closes)).getD i 0)
      else none := by
  rw [signalColumn]
  split_ifs with h26
  · exact getD_map_some _ _ (by rw [ewm_length, macdDiff_length]; exact h)
  · exact getD_replicate_none _ _

theorem maColumn_length (closes : List Rat) :
    (maColumn closes).length = closes.length := by
  rw [maColumn]
  split_ifs with h20
  · simp [rollingMean, idxCol]
  · simp

theorem maColumn_any (closes : List Rat) (h20 : 20 ≤ closes.length) :
    (maColumn closes).any Option.isSome = true := by
  rw [List.any_eq_true]
  have h19 : 19 < (maColumn closes).length := by rw [maColumn_length]; omega
  refine ⟨(maColumn closes).get ⟨19, h19⟩, List.get_mem _ _ _, ?_⟩
  have hval : (maColumn closes).getD 19 none =
      some ((((closes.drop (19 + 1 - 20)).take 20).sum) / (20 : Rat)) := by
    rw [maColumn_getD closes 19 (by omega), if_pos h20, if_pos (by omega)]
  have hget : (maColumn closes).getD 19 none = (maColumn closes).get ⟨19, h19⟩ := by
    rw [List.getD_eq_getElem?_getD, List.getElem?_eq_getElem h19]
    rfl
  rw [hget.symm.trans hval]
  rfl

theorem maAt_isSome (sqrtQ : Rat → Rat) (closes : List Rat) (i : Nat) :
    (maAt sqrtQ closes i).isSome = true ↔
      20 ≤ closes.length ∧ 19 ≤ i ∧ i < closes.length := by
  rcases Nat.lt_or_ge i closes.length with h | h
  · rw [maAt_of_lt _ _ _ h, maColumn_getD _ _ h]
    split_ifs with h20 h19
    · simp
      omega
    · simp
      omega
    · simp
      omega
  · rw [maAt, rowAt_of_ge _ _ _ h]
    simp
    omega

theorem emaAt_isSome (sqrtQ : Rat → Rat) (closes : List Rat) (i : Nat) :
    (emaAt sqrtQ closes i).isSome = true ↔
      20 ≤ closes.length ∧ i < closes.length := by
  rcases Nat.lt_or_ge i closes.length with h | h
  · rw [emaAt_of_lt _ _ _ h, emaColumn_getD _ _ h]
    split_ifs with h20
    · simp
      omega
    · simp
      omega
  · rw [emaAt, rowAt_of_ge _ _ _ h]
    simp
    omega

theorem macdAt_isSome (sqrtQ : Rat → Rat) (closes : List Rat) (i : Nat) :
    (macdAt sqrtQ closes i).isSome = true ↔
      26 ≤ closes.length ∧ i < closes.length := by
  rcases Nat.lt_or_ge i closes.length with h | h
  · rw [macdAt_of_lt _ _ _ h, macdColumn_getD _ _ h]
    split_ifs with h26
    · simp
      omega
    · simp
      omega
  · rw [macdAt, rowAt_of_ge _ _ _ h]
    simp
    omega

theorem signalAt_isSome (sqrtQ : Rat → Rat) (closes : List Rat) (i : Nat) :
    (signalAt sqrtQ closes i).isSome = true ↔
      26 ≤ closes.length ∧ i < closes.length := by
  rcases Nat.lt_or_ge i closes.length with h | h
  · rw [signalAt_of_lt _ _ _ h, signalColumn_getD _ _ h]
    split_ifs with h26
    · simp
      omega
    · simp
      omega
  · rw [signalAt, rowAt_of_ge _ _ _ h]
    simp
    omega

theorem upperAt_isSome (sqrtQ : Rat → Rat) (closes : List Rat) (i : Nat) :
    (upperAt sqrtQ closes i).isSome = true ↔
      20 ≤ closes.length ∧ 19 ≤ i ∧ i < closes.length := by
  rcases Nat.lt_or_ge i closes.length with h | h
  · rw [upperAt_of_lt _ _ _ h, upperColumn]
    by_cases h20 : 20 ≤ closes.length
    · rw [if_pos ⟨h20, maColumn_any closes h20⟩, idxCol_getD _ _ _ h,
        maColumn_getD _ _ h, if_pos h20, rollingStd, idxCol_getD _ _ _ h]
      by_cases h19 : 20 ≤ i + 1
      · rw [if_pos h19, if_pos h19]
        simp
        omega
      · rw [if_neg h19, if_neg h19]
        simp
        omega
    · rw [if_neg fun hc => h20 hc.1]
      rw [getD_replicate_none]
      simp
      omega
  · rw [upperAt, rowAt_of_ge _ _ _ h]
    simp
    omega

theorem lowerAt_isSome (sqrtQ : Rat → Rat) (closes : List Rat) (i : Nat) :
    (lowerAt sqrtQ closes i).isSome = true ↔
      20 ≤ closes.length ∧ 19 ≤ i ∧ i < closes.length := by
  rcases Nat.lt_or_ge i closes.length with h | h
  · rw [lowerAt_of_lt _ _ _ h, lowerColumn]
    by_cases h20 : 20 ≤ closes.length
    · rw [if_pos ⟨h20, maColumn_any closes h20⟩, idxCol_getD _ _ _ h,
        maColumn_getD _ _ h, if_pos h20, rollingStd, idxCol_getD _ _ _ h]
      by_cases h19 : 20 ≤ i + 1
      · rw [if_pos h19, if_pos h19]
        simp
        omega
      · rw [if_neg h19, if_neg h19]
        simp
        omega
    · rw [if_neg fun hc => h20 hc.1]
      rw [getD_replicate_none]
      simp
      omega
  · rw [lowerAt, rowAt_of_ge _ _ _ h]
    simp
    omega

/-- A row of the frame handed to `analyze_trend`: every column access goes
through `get_indicator`, which maps a missing or NA cell to `None`, so each
field is optional, including `Close`. -/
structure TRow where
  close : Option Rat
  ma20 : Option Rat
  ema20 : Option Rat
  macd : Option Rat
  signal : Option Rat
  upper : Option Rat
  lower : Option Rat
deriving Repr, DecidableEq

/-- The trend label (`trend_message`) returned by `analyze_trend`.  Each
constructor stands for one of the fixed Chinese message strings the
function assigns. -/
inductive Trend where
  | noData
  | ranging
  | breakoutUp
  | breakoutDown
  | goldenCross
  | deadCross
  | macdBullish
  | macdBearish
  | uptrend
  | downtrend
deriving Repr, DecidableEq

/-- Whether the label's message string contains the substring for "up"
that the moving-average fallback greps for.  The strings are:
`ranging` "震盪 ↔️", `breakoutUp` "可能突破上漲 📈",
`breakoutDown` "可能突破下跌 📉", `goldenCross` "MACD金叉，上漲趨勢可能形成 🔼",
`deadCross` "MACD死叉，下跌趨勢可能形成 🔽", `macdBullish` "MACD看漲，上漲趨勢中 ⬆️",
`macdBearish` "MACD看跌，下跌趨勢中 ⬇️", `uptrend` "上漲趨勢 ⬆️",
`downtrend` "下跌趨勢 ⬇️". -/
def Trend.mentionsUp : Trend → Bool
  | Trend.breakoutUp => true
  | Trend.goldenCross => true
  | Trend.macdBullish => true
  | Trend.uptrend => true
  | _ => false

/-- Whether the label's message string contains the substring for "down";
see `Trend.mentionsUp` for the strings. -/
def Trend.mentionsDown : Trend → Bool
  | Trend.breakoutDown => true
  | Trend.deadCross => true
  | Trend.macdBearish => true
  | Trend.downtrend => true
  | _ => false

/-- The Bollinger block: if both bands are available, a close above the
upper band or below the lower band overwrites the initial ranging label. -/
def bollRule (close : Rat) (latest : TRow) : Trend :=
  match latest.upper, latest.lower with
  | some u, some l =>
    if close > u then Trend.breakoutUp
    else if close < l then Trend.breakoutDown
    else Trend.ranging
  | _, _ => Trend.ranging

/-- The four-way comparison chain of the MACD block, once the latest and
previous MACD/Signal values are all at hand. -/
def macdCross (m s pm ps : Rat) (t : Trend) : Trend :=
  if m > s ∧ pm ≤ ps then Trend.goldenCross
  else if m < s ∧ pm ≥ ps then Trend.deadCross
  else if m > s then Trend.macdBullish
  else if m < s then Trend.macdBearish
  else t

/-- The MACD block's handling of the previous row (`iloc[-2]`).  When a
previous cell is NaN in the float column, `.item()` yields `nan` and the
NaN comparisons are false in Python, so the two cross tests fail and
control falls through to the bullish/bearish comparisons of the latest
values.  (With this engine that branch is unreachable: MACD/Signal cells
are either all present or all absent in a column.) -/
def macdPrevRow (m s : Rat) (prev : TRow) (t : Trend) : Trend :=
  match prev.macd, prev.signal with
  | some pm, some ps => macdCross m s pm ps t
  | _, _ =>
    if m > s then Trend.macdBullish
    else if m < s then Trend.macdBearish
    else t

/-- The MACD block: runs when the latest MACD and Signal are available and
the frame has at least two rows. -/
def macdRule (df : List TRow) (latest : TRow) (t : Trend) : Trend :=
  match latest.macd, latest.signal with
  | some m, some s =>
    if 2 ≤ df.length then macdPrevRow m s (df.getD (df.length - 2) latest) t
    else t
  | _, _ => t

/-- The moving-average fallback block: only fires when MA20 and EMA20 are
available and the message so far mentions neither direction substring. -/
def maRule (close : Rat) (latest : TRow) (t : Trend) : Trend :=
  match latest.ma20, latest.ema20 with
  | some ma, some ema =>
    if t.mentionsUp = false ∧ t.mentionsDown = false then
      if close > ma ∧ close > ema then Trend.uptrend
      else if close < ma ∧ close < ema then Trend.downtrend
      else t
    else t
  | _, _ => t

/-- The body of `analyze_trend` after `latest = df.iloc[-1]` has been
taken: a missing latest close is the hard no-data exit; otherwise the
three rule blocks run in sequence over the mutable `trend_message`.  (The
final five-bar history block only appends explanation text and never
changes the label, so it does not appear in the label model.) -/
def analyzeLatest (df : List TRow) (latest : TRow) : Trend :=
  match latest.close with
  | none => Trend.noData
  | some close => maRule close latest (macdRule df latest (bollRule close latest))

/-- `analyze_trend`: an empty (or `None`) frame is the other no-data exit,
taken before `iloc[-1]` is evaluated. -/
def analyze_trend (df : List TRow) : Trend :=
  match df.getLast? with
  | none => Trend.noData
  | some latest => analyzeLatest df latest

theorem analyze_trend_eq (df : List TRow) (latest : TRow)
    (h : df.getLast? = some latest) :
    analyze_trend df = analyzeLatest df latest := by
  unfold analyze_trend
  rw [h]

theorem bollRule_ne_noData (close : Rat) (latest : TRow) :
    bollRule close latest ≠ Trend.noData := by
  unfold bollRule
  cases latest.upper <;> cases latest.lower <;> simp <;> split_ifs <;> simp

theorem macdCross_ne_noData (m s pm ps : Rat) (t : Trend)
    (ht : t ≠ Trend.noData) : macdCross m s pm ps t ≠ Trend.noData := by
  unfold macdCross
  split_ifs <;> simp [ht]

theorem macdPrevRow_ne_noData (m s : Rat) (prev : TRow) (t : Trend)
    (ht : t ≠ Trend.noData) : macdPrevRow m s prev t ≠ Trend.noData := by
  unfold macdPrevRow
  rcases prev.macd with _ | pm <;> rcases prev.signal with _ | ps
  · show (if m > s then Trend.macdBullish
      else if m < s then Trend.macdBearish else t) ≠ Trend.noData
    split_ifs <;> simp [ht]
  · show (if m > s then Trend.macdBullish
      else if m < s then Trend.macdBearish else t) ≠ Trend.noData
    split_ifs <;> simp [ht]
  · show (if m > s then Trend.macdBullish
      else if m < s then Trend.macdBearish else t) ≠ Trend.noData
    split_ifs <;> simp [ht]
  · exact macdCross_ne_noData m s pm ps t ht

theorem macdRule_ne_noData (df : List TRow) (latest : TRow) (t : Trend)
    (ht : t ≠ Trend.noData) : macdRule df latest t ≠ Trend.noData := by
  unfold macdRule
  rcases latest.macd with _ | m <;> rcases latest.signal with _ | s
  · exact ht
  · exact ht
  · exact ht
  · show (if 2 ≤ df.length then
        macdPrevRow m s (df.getD (df.length - 2) latest) t else t) ≠ Trend.noData
    split_ifs with hlen
    · exact macdPrevRow_ne_noData _ _ _ _ ht
    · exact ht

theorem maRule_ne_noData (close : Rat) (latest : TRow) (t : Trend)
    (ht : t ≠ Trend.noData) : maRule close latest t ≠ Trend.noData := by
  unfold maRule
  cases latest.ma20 <;> cases latest.ema20 <;> simp [ht] <;>
    split_ifs <;> simp [ht]

theorem maRule_of_mentions (close : Rat) (latest : TRow) (t : Trend)
    (ht : t.mentionsUp = true ∨ t.mentionsDown = true) :
    maRule close latest t = t := by
  unfold maRule
  cases latest.ma20 <;> cases latest.ema20 <;> simp <;>
    rcases ht with ht | ht <;> simp [ht]

theorem isEmpty_false_of_ne {closes : List Rat} (h : closes ≠ []) :
    closes.isEmpty = false := by
  cases closes with
  | nil => exact absurd rfl h
  | cons x xs => rfl

/-- Modelled from the spec: the gain terms of Wilder-style RSI at bar `i`,
`gain[j] = max(close[j] - close[j-1], 0)` over the trailing `w` diffs.
The RSI indicator is described in spec section 4.1 but is absent from
`src/trend-monitor.py` (the file computes only MA20, EMA20, MACD, Signal
and the Bollinger bands). -/
def rsiGains (w : Nat) (closes : List Rat) (i : Nat) : List Rat :=
  (List.range w).map fun k =>
    max (closes.getD (i - w + 1 + k) 0 - closes.getD (i - w + k) 0) 0

/-- Modelled from the spec: the loss terms of Wilder-style RSI at bar `i`,
`loss[j] = max(close[j-1] - close[j], 0)` over the trailing `w` diffs. -/
def rsiLosses (w : Nat) (closes : List Rat) (i : Nat) : List Rat :=
  (List.range w).map fun k =>
    max (closes.getD (i - w + k) 0 - closes.getD (i - w + 1 + k) 0) 0

/-- Modelled from the spec: `avg_gain`, `avg_loss` are simple rolling means
of the gain/loss terms; `RS = avg_gain / avg_loss`;
`RSI = 100 - 100 / (1 + RS)`; when `avg_loss == 0`, RSI is defined as 100
rather than raising a division error. -/
def rsiValue (w : Nat) (closes : List Rat) (i : Nat) : Option Rat :=
  if (rsiLosses w closes i).sum / (w : Rat) = 0 then some 100
  else
    some (100 - 100 / (1 +
      ((rsiGains w closes i).sum / (w : Rat)) / ((rsiLosses w closes i).sum / (w : Rat))))

/-- Modelled from the spec: the RSI cell at bar `i` is gated to require
`rsi + 1` bars (one extra for the first diff) and `w` trailing diffs,
absent otherwise. -/
def rsiCell (w : Nat) (closes : List Rat) (i : Nat) : Option Rat :=
  if w + 1 ≤ closes.length ∧ w ≤ i then rsiValue w closes i else none

/-- Modelled from the spec: the RSI column over the series, one optional
cell per bar, with the default window `rsi = 14` supplied by `rsiAt`. -/
def rsiColumn (w : Nat) (closes : List Rat) : List (Option Rat) :=
  idxCol closes.length (rsiCell w closes)

/-- Modelled from the spec: the RSI cell at index `i` with the default
window 14. -/
def rsiAt (closes : List Rat) (i : Nat) : Option Rat :=
  (rsiColumn 14 closes).getD i none

/-- The two-row frame on which both the Bollinger-breakout condition and
the MACD golden-cross condition hold: latest close 110 is above the upper
band 100, prior MACD 1 is at most prior Signal 1, and current MACD 2 is
above current Signal 1. -/
def c1prev : TRow := ⟨some 100, none, none, some 1, some 1, none, none⟩

/-- The latest row of the C1 frame; see `c1prev`. -/
def c1latest : TRow := ⟨some 110, none, none, some 2, some 1, some 100, some 90⟩

/-- C1 counterexample: on a frame where the close exceeds the upper band
and a golden cross holds simultaneously, `analyze_trend` returns the
golden-cross label, not the breakout label: the MACD block runs after the
Bollinger block and overwrites its result. -/
theorem spec_c1_counterexample :
    analyze_trend [c1prev, c1latest] = Trend.goldenCross ∧
    analyze_trend [c1prev, c1latest] ≠ Trend.breakoutUp := by
  decide

/-- C1 (amended): whenever the Bollinger-breakout condition (latest close
strictly above the available upper band) and the MACD golden-cross
condition (prior MACD at most prior Signal, current MACD above current
Signal, all four available) hold simultaneously, `analyze_trend` returns
the GoldenCross label: the later MACD block overwrites the Bollinger
result, so the crossover outranks the breakout. -/
theorem spec_c1_amended (df : List TRow) (latest : TRow) (c u l m s pm ps : Rat)
    (hlast : df.getLast? = some latest)
    (hclose : latest.close = some c)
    (hu : latest.upper = some u) (hl : latest.lower = some l)
    (hbu : c > u)
    (hm : latest.macd = some m) (hs : latest.signal = some s)
    (hlen : 2 ≤ df.length)
    (hpm : (df.getD (df.length - 2) latest).macd = some pm)
    (hps : (df.getD (df.length - 2) latest).signal = some ps)
    (hcur : m > s) (hprev : pm ≤ ps) :
    analyze_trend df = Trend.goldenCross := by
  rw [analyze_trend_eq df latest hlast]
  unfold analyzeLatest
  rw [hclose]
  show maRule c latest (macdRule df latest (bollRule c latest)) = Trend.goldenCross
  have hmacd : macdRule df latest (bollRule c latest) = Trend.goldenCross := by
    unfold macdRule
    simp only [hm, hs]
    rw [if_pos hlen]
    unfold macdPrevRow
    simp only [hpm, hps]
    unfold macdCross
    rw [if_pos ⟨hcur, hprev⟩]
  rw [hmacd]
  exact maRule_of_mentions c latest Trend.goldenCross (Or.inl rfl)

/-- C1 witness: the amended theorem applied to the concrete two-row frame
`[c1prev, c1latest]`. -/
theorem spec_c1_witness : analyze_trend [c1prev, c1latest] = Trend.goldenCross :=
  spec_c1_amended [c1prev, c1latest] c1latest 110 100 90 2 1 1 1
    rfl rfl rfl rfl (by decide) rfl rfl (by decide) rfl rfl (by decide) (by decide)

/-- C2 counterexample: on a 26-bar series the engine's MACD and Signal
cells are already present at index 0, which is strictly below
`macd_slow - 1 = 25`; the 26-bar gate is per-series, not per-index. -/
theorem spec_c2_counterexample :
    (macdAt (fun _ : Rat => (0 : Rat)) (List.replicate 26 1) 0).isSome = true ∧
    (signalAt (fun _ : Rat => (0 : Rat)) (List.replicate 26 1) 0).isSome = true :=
  ⟨(macdAt_isSome (fun _ : Rat => (0 : Rat)) (List.replicate 26 1) 0).mpr (by simp),
    (signalAt_isSome (fun _ : Rat => (0 : Rat)) (List.replicate 26 1) 0).mpr (by simp)⟩

/-- C2 (amended): the MACD and Signal cells are present at index `i`
exactly when the series has at least `macd_slow = 26` bars and `i` is in
range; for a qualifying series they are present from index 0 onward (the
full `ewm` recurrence output is exposed), and for a shorter series they
are absent at every index. -/
theorem spec_c2_amended (sqrtQ : Rat → Rat) (closes : List Rat) (i : Nat) :
    ((macdAt sqrtQ closes i).isSome = true ↔
      26 ≤ closes.length ∧ i < closes.length) ∧
    ((signalAt sqrtQ closes i).isSome = true ↔
      26 ≤ closes.length ∧ i < closes.length) :=
  ⟨macdAt_isSome sqrtQ closes i, signalAt_isSome sqrtQ closes i⟩

/-- C3 counterexample: on the non-empty one-bar series `[1]` the EMA20
cell at index 0 is absent: the code computes EMA20 only under the same
20-bar length check as MA20. -/
theorem spec_c3_counterexample :
    emaAt (fun _ : Rat => (0 : Rat)) [1] 0 = none := by
  decide

/-- C3 (amended): the EMA20 cell is present at index `i` exactly when the
series has at least 20 bars and `i` is in range; in particular, for a
qualifying series it is present from index 0 with no warm-up gap, but for
any shorter series, non-empty ones included, it is absent at every
index. -/
theorem spec_c3_amended (sqrtQ : Rat → Rat) (closes : List Rat) (i : Nat) :
    (emaAt sqrtQ closes i).isSome = true ↔
      20 ≤ closes.length ∧ i < closes.length :=
  emaAt_isSome sqrtQ closes i

/-- C4: for a series of at least `rsi + 1 = 15` bars, the RSI cell at the
last index is present, and it equals exactly 100 whenever every loss term
of the trailing window is zero, i.e. whenever the trailing 14 diffs are
all nonnegative, as with any strictly increasing close sequence; the
zero-average-loss case yields 100 rather than a division error. -/
theorem spec_c4_rsi (closes : List Rat) (h : 15 ≤ closes.length) :
    (rsiAt closes (closes.length - 1)).isSome = true ∧
    ((∀ k, k < 14 →
        closes.getD (closes.length - 1 - 14 + k) 0 ≤
          closes.getD (closes.length - 1 - 14 + 1 + k) 0) →
      rsiAt closes (closes.length - 1) = some 100) := by
  have hn : closes.length - 1 < closes.length := by omega
  have hcell : rsiAt closes (closes.length - 1) =
      rsiCell 14 closes (closes.length - 1) := by
    rw [rsiAt, rsiColumn, idxCol_getD _ _ _ hn]
  have hcond : 14 + 1 ≤ closes.length ∧ 14 ≤ closes.length - 1 :=
    ⟨by omega, by omega⟩
  constructor
  · rw [hcell, rsiCell, if_pos hcond, rsiValue]
    split_ifs <;> rfl
  · intro hmono
    have hzero : (rsiLosses 14 closes (closes.length - 1)).sum = 0 := by
      apply List.sum_eq_zero
      intro x hx
      rw [rsiLosses] at hx
      simp only [List.mem_map, List.mem_range] at hx
      obtain ⟨k, hk, hxe⟩ := hx
      rw [← hxe]
      exact max_eq_right (sub_nonpos.mpr (hmono k hk))
    rw [hcell, rsiCell, if_pos hcond, rsiValue, hzero]
    norm_num

/-- C4 witness: the theorem applied to the strictly increasing 15-bar
series `0, 1, ..., 14`, where the RSI at the last index evaluates to
exactly 100. -/
theorem spec_c4_witness :
    rsiAt ((List.range 15).map fun k => (k : Rat))
      (((List.range 15).map fun k => (k : Rat)).length - 1) = some 100 :=
  (spec_c4_rsi ((List.range 15).map fun k => (k : Rat)) (by decide)).2 (by decide)

/-- C5 counterexample: on the empty series the engine returns the failure
value `None` instead of a (zero-length) row sequence. -/
theorem spec_c5_counterexample :
    calculate_indicators (fun _ : Rat => (0 : Rat)) [] = none := rfl

/-- C5 (amended): for every non-empty input series the indicator
computation returns (never raises) a row sequence of exactly the same
length and alignment as the input, with not-yet-computable indicators
absent per row; for the empty (or invalid) input, however, it returns the
failure value `None` rather than a row sequence. -/
theorem spec_c5_amended (sqrtQ : Rat → Rat) (closes : List Rat)
    (h : closes ≠ []) :
    (calculate_indicators sqrtQ closes).map List.length = some closes.length := by
  rw [calculate_indicators, if_neg (by simp [isEmpty_false_of_ne h])]
  simp

/-- C5 witness: the amended theorem applied to the one-bar series `[1]`. -/
theorem spec_c5_witness :
    (calculate_indicators (fun _ : Rat => (0 : Rat)) [1]).map List.length = some 1 :=
  spec_c5_amended (fun _ : Rat => (0 : Rat)) [1] (by decide)

/-- C6: the classifier returns the hard no-data result exactly when the
latest row's close is missing; any other missing indicator only makes the
corresponding rule block skip, and the result is then some proper label. -/
theorem spec_c6_noData (df : List TRow) (latest : TRow)
    (h : df.getLast? = some latest) :
    analyze_trend df = Trend.noData ↔ latest.close = none := by
  rw [analyze_trend_eq df latest h]
  constructor
  · intro hnd
    rcases hc : latest.close with _ | c
    · rfl
    · exfalso
      unfold analyzeLatest at hnd
      rw [hc] at hnd
      exact maRule_ne_noData c latest _
        (macdRule_ne_noData df latest _ (bollRule_ne_noData c latest)) hnd
  · intro hc
    unfold analyzeLatest
    rw [hc]

/-- C6 witness: the theorem applied to a one-row frame whose close is
present and all of whose indicators are missing. -/
theorem spec_c6_witness :
    analyze_trend [(⟨some 5, none, none, none, none, none, none⟩ : TRow)] =
        Trend.noData ↔
      (⟨some 5, none, none, none, none, none, none⟩ : TRow).close = none :=
  spec_c6_noData [⟨some 5, none, none, none, none, none, none⟩]
    ⟨some 5, none, none, none, none, none, none⟩ rfl

/-- C7: monotone availability: for each of the six indicator columns the
engine produces, a cell present at index `i` is present at every index
`j ≥ i` of the same output. -/
theorem spec_c7_monotone (sqrtQ : Rat → Rat) (closes : List Rat) (i j : Nat)
    (hij : i ≤ j) (hj : j < closes.length) :
    ((maAt sqrtQ closes i).isSome = true → (maAt sqrtQ closes j).isSome = true) ∧
    ((emaAt sqrtQ closes i).isSome = true → (emaAt sqrtQ closes j).isSome = true) ∧
    ((macdAt sqrtQ closes i).isSome = true → (macdAt sqrtQ closes j).isSome = true) ∧
    ((signalAt sqrtQ closes i).isSome = true → (signalAt sqrtQ closes j).isSome = true) ∧
    ((upperAt sqrtQ closes i).isSome = true → (upperAt sqrtQ closes j).isSome = true) ∧
    ((lowerAt sqrtQ closes i).isSome = true → (lowerAt sqrtQ closes j).isSome = true) := by
  refine ⟨?_, ?_, ?_, ?_, ?_, ?_⟩ <;> intro hs
  · rw [maAt_isSome] at hs ⊢
    exact ⟨hs.1, le_trans hs.2.1 hij, hj⟩
  · rw [emaAt_isSome] at hs ⊢
    exact ⟨hs.1, hj⟩
  · rw [macdAt_isSome] at hs ⊢
    exact ⟨hs.1, hj⟩
  · rw [signalAt_isSome] at hs ⊢
    exact ⟨hs.1, hj⟩
  · rw [upperAt_isSome] at hs ⊢
    exact ⟨hs.1, le_trans hs.2.1 hij, hj⟩
  · rw [lowerAt_isSome] at hs ⊢
    exact ⟨hs.1, le_trans hs.2.1 hij, hj⟩

/-- C7 witness: the theorem applied to the 20-bar constant series at
indices 19 and 19. -/
theorem spec_c7_witness :
    ((maAt (fun _ : Rat => (0 : Rat)) (List.replicate 20 1) 19).isSome = true →
      (maAt (fun _ : Rat => (0 : Rat)) (List.replicate 20 1) 19).isSome = true) ∧
    ((emaAt (fun _ : Rat => (0 : Rat)) (List.replicate 20 1) 19).isSome = true →
      (emaAt (fun _ : Rat => (0 : Rat)) (List.replicate 20 1) 19).isSome = true) ∧
    ((macdAt (fun _ : Rat => (0 : Rat)) (List.replicate 20 1) 19).isSome = true →
      (macdAt (fun _ : Rat => (0 : Rat)) (List.replicate 20 1) 19).isSome = true) ∧
    ((signalAt (fun _ : Rat => (0 : Rat)) (List.replicate 20 1) 19).isSome = true →
      (signalAt (fun _ : Rat => (0 : Rat)) (List.replicate 20 1) 19).isSome = true) ∧
    ((upperAt (fun _ : Rat => (0 : Rat)) (List.replicate 20 1) 19).isSome = true →
      (upperAt (fun _ : Rat => (0 : Rat)) (List.replicate 20 1) 19).isSome = true) ∧
    ((lowerAt (fun _ : Rat => (0 : Rat)) (List.replicate 20 1) 19).isSome = true →
      (lowerAt (fun _ : Rat => (0 : Rat)) (List.replicate 20 1) 19).isSome = true) :=
  spec_c7_monotone (fun _ : Rat => (0 : Rat)) (List.replicate 20 1) 19 19
    (le_refl 19) (by decide)

/-- C8: the MA20 cell is absent at every index of a series shorter than
20 bars; on a series of at least 20 bars it is absent at indices below 19
and present from index 19 on, where it equals the arithmetic mean of the
trailing 20 close values. -/
theorem spec_c8_ma (sqrtQ : Rat → Rat) (closes : List Rat) (i : Nat) :
    (closes.length < 20 → maAt sqrtQ closes i = none) ∧
    (i < 19 → maAt sqrtQ closes i = none) ∧
    (20 ≤ closes.length → 19 ≤ i → i < closes.length →
      maAt sqrtQ closes i =
        some ((((closes.drop (i + 1 - 20)).take 20).sum) / (20 : Rat))) := by
  refine ⟨?_, ?_, ?_⟩
  · intro h20
    rcases hma : maAt sqrtQ closes i with _ | v
    · rfl
    · exfalso
      have hiff := maAt_isSome sqrtQ closes i
      rw [hma] at hiff
      simp at hiff
      omega
  · intro h19
    rcases hma : maAt sqrtQ closes i with _ | v
    · rfl
    · exfalso
      have hiff := maAt_isSome sqrtQ closes i
      rw [hma] at hiff
      simp at hiff
      omega
  · intro h20 h19 hlt
    rw [maAt_of_lt _ _ _ hlt, maColumn_getD _ _ hlt, if_pos h20,
      if_pos (by omega : 20 ≤ i + 1)]

/-- C8 witness: the theorem applied to the 20-bar constant series at
index 19. -/
theorem spec_c8_witness :
    maAt (fun _ : Rat => (0 : Rat)) (List.replicate 20 1) 19 =
      some (((((List.replicate 20 (1 : Rat)).drop (19 + 1 - 20)).take 20).sum) / (20 : Rat)) :=
  (spec_c8_ma (fun _ : Rat => (0 : Rat)) (List.replicate 20 1) 19).2.2
    (by decide) (by decide) (by decide)

/-- C9: frame property: the caller's series comes back from the call
unchanged in every bar and field; the engine's first step copies the frame
and every write targets the copy. -/
theorem spec_c9_frame (sqrtQ : Rat → Rat) (df : List Rat) :
    (calculate_indicators_call sqrtQ df).1 = df := rfl

/-- C10: purity: two calls of the indicator computation on equal series
values return equal indicator-row sequences, index by index and field by
field. -/
theorem spec_c10_pure (sqrtQ : Rat → Rat) (s1 s2 : List Rat) (h : s1 = s2) :
    calculate_indicators sqrtQ s1 = calculate_indicators sqrtQ s2 := by
  rw [h]

/-- C10 witness: the theorem applied to two copies of the one-bar series
`[1]`. -/
theorem spec_c10_witness :
    calculate_indicators (fun _ : Rat => (0 : Rat)) [1] =
      calculate_indicators (fun _ : Rat => (0 : Rat)) [1] :=
  spec_c10_pure (fun _ : Rat => (0 : Rat)) [1] [1] rfl

end TrendMonitor
